import Mathlib

/-!
Verification of the offline tile cache and download subsystem of a
Vue/OpenLayers progressive web app.

The development shallowly embeds the TypeScript sources:

* `src/services/tileCalculator.ts` — pure tile coordinate math
  (`lonLatToTile`, `getTilesInExtent`, `calculateDownloadList`,
  `estimateDownloadSize`);
* `src/services/tileDownloader.ts` — the retrying downloader
  (`downloadTileWithRetry`, `downloadTiles`) and the key-value tile store
  helpers (`getTileFromStorage`, `deleteTileFromStorage`,
  `getAllStoredTileKeys`);
* `src/composables/useDownloadedAreas.ts` — area CRUD and orphan-tile
  discovery (`getAllAreas`, `getAreaById`, `deleteArea`, `getCachedTiles`,
  `deleteCachedTiles`);
* `src/composables/useOfflineTiles.ts` — the download orchestrator
  (`downloadArea`).

JavaScript numbers are embedded as exact `ℚ`/`ℤ`/`ℕ` arithmetic.  The one
transcendental line of the code — the Web Mercator `y` formula
`floor((1 - ln(tan latRad + sec latRad)/pi)/2 * 2^zoom)` — is kept as an
abstract parameter `mercY : ℚ → ℕ → ℤ` (clamped latitude and zoom in,
tile row out), because no claim below depends on its numeric values, only
on its determinism.  Thrown JavaScript exceptions become `Except` values.
The browser's IndexedDB (through idb-keyval) becomes an association list
from string keys to stored values.
-/

namespace TileCache

/-- Tile coordinate, from `TileCoord` in `src/types.ts`.  All three
components are JavaScript numbers; the code only ever constructs them
from integers. -/
structure TileCoord where
  z : ℤ
  x : ℤ
  y : ℤ
deriving DecidableEq, Repr

/-- Geographic rectangle, from `BoundingBox` in `src/types.ts`. -/
structure BoundingBox where
  west : ℚ
  south : ℚ
  east : ℚ
  north : ℚ
deriving DecidableEq, Repr

/-- First normalization loop of `lonLatToTile`:
`while (lon > 180) lon -= 360`. -/
def normLonHi (lon : ℚ) : ℚ :=
  if h : 180 < lon then normLonHi (lon - 360) else lon
  termination_by (⌈lon / 360⌉).toNat
  decreasing_by
    have h1 : (0 : ℤ) < ⌈lon / 360⌉ := by
      rw [Int.ceil_pos]
      positivity
    have h2 : ⌈(lon - 360) / 360⌉ = ⌈lon / 360⌉ - 1 := by
      rw [sub_div, div_self (by norm_num : (360 : ℚ) ≠ 0)]
      rw [show ((1 : ℚ)) = ((1 : ℤ) : ℚ) by norm_num, Int.ceil_sub_int]
    rw [h2]
    omega

/-- Second normalization loop of `lonLatToTile`:
`while (lon < -180) lon += 360`. -/
def normLonLo (lon : ℚ) : ℚ :=
  if h : lon < -180 then normLonLo (lon + 360) else lon
  termination_by (⌈-lon / 360⌉).toNat
  decreasing_by
    have h1 : (0 : ℤ) < ⌈-lon / 360⌉ := by
      rw [Int.ceil_pos]
      have : (180 : ℚ) < -lon := by linarith
      positivity
    have h2 : ⌈-(lon + 360) / 360⌉ = ⌈-lon / 360⌉ - 1 := by
      rw [show -(lon + 360) = -lon - 360 by ring, sub_div,
        div_self (by norm_num : (360 : ℚ) ≠ 0)]
      rw [show ((1 : ℚ)) = ((1 : ℤ) : ℚ) by norm_num, Int.ceil_sub_int]
    rw [h2]
    omega

/-- Longitude normalization of `lonLatToTile` (`src/services/tileCalculator.ts`
lines 13–14): the high loop runs first, then the low loop. -/
def normLon (lon : ℚ) : ℚ := normLonLo (normLonHi lon)

/-- Latitude clamp of `lonLatToTile` (line 17):
`lat = Math.max(-85.0511, Math.min(85.0511, lat))`. -/
def clampLat (lat : ℚ) : ℚ := max (-85.0511) (min 85.0511 lat)

/-- `lonLatToTile` from `src/services/tileCalculator.ts` lines 7–36.  The
`x` pipeline (floor, then the two clamps) is embedded exactly; the
transcendental `y` line is the abstract parameter `mercY` applied to the
clamped latitude and the zoom. -/
def lonLatToTile (mercY : ℚ → ℕ → ℤ) (lon0 lat0 : ℚ) (zoom : ℕ) : ℤ × ℤ :=
  let lon := normLon lon0
  let lat := clampLat lat0
  let numTiles : ℤ := 2 ^ zoom
  let x0 : ℤ := ⌊(lon + 180) / 360 * ((2 : ℚ) ^ zoom)⌋
  let x1 : ℤ := if numTiles ≤ x0 then numTiles - 1 else x0
  let x : ℤ := if x1 < 0 then 0 else x1
  (x, mercY lat zoom)

/-- Inclusive integer range `[a, b]`, the index set of a JavaScript
`for (let i = a; i <= b; i++)` loop. -/
def intRange (a b : ℤ) : List ℤ :=
  (List.range (b + 1 - a).toNat).map (fun i : ℕ => a + (i : ℤ))

/-- The nested tile loop of `getTilesInExtent` (lines 56–60): every
`(x, y)` with `x` in `[x0, x1]` (outer) and `y` in `[y0, y1]` (inner). -/
def tileRect (zoom : ℕ) (x0 x1 y0 y1 : ℤ) : List TileCoord :=
  (intRange x0 x1).flatMap fun x => (intRange y0 y1).map fun y => ⟨(zoom : ℤ), x, y⟩

/-- `getTilesInExtent` from `src/services/tileCalculator.ts` lines 41–63.
The thrown `Error` for an inverted bounding box becomes `Except.error` of
the same message. -/
def getTilesInExtent (mercY : ℚ → ℕ → ℤ) (bbox : BoundingBox) (zoom : ℕ) :
    Except String (List TileCoord) :=
  if bbox.west > bbox.east then
    .error
      "Invalid bounding box: west longitude must be less than or equal to east longitude"
  else
    let topLeft := lonLatToTile mercY bbox.west bbox.north zoom
    let bottomRight := lonLatToTile mercY bbox.east bbox.south zoom
    .ok (tileRect zoom topLeft.1 bottomRight.1 topLeft.2 bottomRight.2)

/-- The zoom loop of `calculateDownloadList` (lines 77–80), collecting the
per-zoom tile lists in order and propagating a thrown error. -/
def collectZooms (mercY : ℚ → ℕ → ℤ) (bbox : BoundingBox) :
    List ℕ → Except String (List TileCoord)
  | [] => .ok []
  | z :: zs => do
    let t ← getTilesInExtent mercY bbox z
    let rest ← collectZooms mercY bbox zs
    pure (t ++ rest)

/-- `calculateDownloadList` from `src/services/tileCalculator.ts` lines
68–83: tiles of every zoom in `[baseZoom, baseZoom + additionalLevels]`. -/
def calculateDownloadList (mercY : ℚ → ℕ → ℤ) (bbox : BoundingBox)
    (baseZoom additionalLevels : ℕ) : Except String (List TileCoord) :=
  collectZooms mercY bbox ((List.range (additionalLevels + 1)).map (fun i => baseZoom + i))

/-- `estimateDownloadSize` from `src/services/tileCalculator.ts` lines
89–92: `tiles.length * 20 * 1024`. -/
def estimateDownloadSize (tiles : List TileCoord) : ℤ :=
  (tiles.length : ℤ) * (20 * 1024)

/-! ## Tile downloader (`src/services/tileDownloader.ts`) -/

/-- A JavaScript `Blob`, abstracted to the only attribute the downloader
reads: its byte size. -/
structure JsBlob where
  size : ℤ
deriving DecidableEq, Repr

/-- Outcome of one `fetch` of a tile URL: either a response carrying an
HTTP status (`response.ok` is `200 ≤ status < 300`) and a body blob, or a
network-level rejection (DNS/connection error) with its message. -/
inductive FetchOutcome where
  | resp (status : ℤ) (blob : JsBlob)
  | netError (msg : String)
deriving DecidableEq, Repr

/-- The error values `downloadTileWithRetry` can throw: its own
`Failed to download tile z/x/y: status` error (`http`), a caught network-level
error (`net`), or the fallback `Error` built after the loop when no
attempt ran (`exhausted`).  The code discriminates these by sniffing the
message string for a trailing `: 4xx`; on the values it actually produces
that test recognizes exactly the `http` errors with a 4xx status. -/
inductive DlError where
  | http (tile : TileCoord) (status : ℤ)
  | net (msg : String)
  | exhausted (tile : TileCoord) (maxRetries : ℕ)
deriving DecidableEq, Repr

/-- URL substitution shared by `downloadTile` and `downloadTileWithRetry`:
replace `{z}`, `{x}`, `{y}` in the template by the decimal coordinates. -/
def buildTileUrl (urlTemplate : String) (tile : TileCoord) : String :=
  ((urlTemplate.replace "{z}" (toString tile.z)).replace "{x}" (toString tile.x)).replace
    "{y}" (toString tile.y)

/-- `response.ok` for an HTTP status. -/
def respOk (status : ℤ) : Bool := 200 ≤ status && status < 300

/-- Whether a status is a non-retryable client error:
`status >= 400 && status < 500 && status !== 429` (line 146, re-checked by
the catch block at lines 166–171). -/
def nonRetryable4xx (status : ℤ) : Bool :=
  400 ≤ status && status < 500 && status != 429

/-- The `for (attempt = 1; attempt <= maxRetries; attempt++)` loop of
`downloadTileWithRetry` (lines 131–184), from a given attempt number and
the current `lastError`.  `fetchRes url attempt` is the platform fetch of
that URL on that attempt.  The second component of the result is the list
of backoff delays slept, in order: the code sleeps
`baseDelay * 2 ^ (attempt - 1)` milliseconds only when the attempt failed
retryably and was not the last one. -/
def downloadTileWithRetryAux (fetchRes : String → ℕ → FetchOutcome) (tile : TileCoord)
    (urlTemplate : String) (maxRetries : ℕ) (baseDelay : ℤ) (attempt : ℕ)
    (lastError : Option DlError) : Except DlError JsBlob × List ℤ :=
  if _h : maxRetries < attempt then
    (.error (lastError.getD (.exhausted tile maxRetries)), [])
  else
    match fetchRes (buildTileUrl urlTemplate tile) attempt with
    | .resp status blob =>
      if respOk status then (.ok blob, [])
      else
        let err : DlError := .http tile status
        if nonRetryable4xx status then
          -- thrown inside the try, re-recognized and rethrown by the catch
          (.error err, [])
        else if attempt < maxRetries then
          let d := baseDelay * 2 ^ (attempt - 1)
          let rest := downloadTileWithRetryAux fetchRes tile urlTemplate maxRetries baseDelay
            (attempt + 1) (some err)
          (rest.1, d :: rest.2)
        else
          downloadTileWithRetryAux fetchRes tile urlTemplate maxRetries baseDelay
            (attempt + 1) (some err)
    | .netError msg =>
      let err : DlError := .net msg
      if attempt < maxRetries then
        let d := baseDelay * 2 ^ (attempt - 1)
        let rest := downloadTileWithRetryAux fetchRes tile urlTemplate maxRetries baseDelay
          (attempt + 1) (some err)
        (rest.1, d :: rest.2)
      else
        downloadTileWithRetryAux fetchRes tile urlTemplate maxRetries baseDelay
          (attempt + 1) (some err)
  termination_by maxRetries + 1 - attempt
  decreasing_by all_goals omega

/-- `downloadTileWithRetry` from `src/services/tileDownloader.ts` lines
125–185, returning the final result together with the backoff delays
slept. -/
def downloadTileWithRetry (fetchRes : String → ℕ → FetchOutcome) (tile : TileCoord)
    (urlTemplate : String) (maxRetries : ℕ) (baseDelay : ℤ) :
    Except DlError JsBlob × List ℤ :=
  downloadTileWithRetryAux fetchRes tile urlTemplate maxRetries baseDelay 1 none

/-- How one tile's task in `downloadTiles` settles: `success size` when
`downloadTileWithRetry` returned a blob and `saveTileToStorage` stored it
reporting `size` bytes; `failure` when either threw (the catch at lines
214–220 swallows the error). -/
inductive TileOutcome where
  | success (size : ℤ)
  | failure
deriving DecidableEq, Repr

/-- One invocation of the `onProgress` callback
(`DownloadProgressCallback`, lines 12–14). -/
structure ProgressEvent where
  downloaded : ℕ
  failed : ℕ
  total : ℕ
  bytesDownloaded : ℤ
deriving DecidableEq, Repr

/-- The shared counters of `downloadTiles` (lines 200–203) plus the
sequence of progress events emitted so far. -/
structure BatchState where
  downloaded : ℕ
  failed : ℕ
  bytesDownloaded : ℤ
  events : List ProgressEvent
deriving DecidableEq, Repr

/-- Settlement of one tile task of `downloadTiles` (lines 205–221): bump
the corresponding counter, then report the cumulative counters to
`onProgress`. -/
def downloadTilesStep (total : ℕ) (st : BatchState) (o : TileOutcome) : BatchState :=
  match o with
  | .success size =>
    let d := st.downloaded + 1
    let b := st.bytesDownloaded + size
    ⟨d, st.failed, b, st.events ++ [⟨d, st.failed, total, b⟩]⟩
  | .failure =>
    let f := st.failed + 1
    ⟨st.downloaded, f, st.bytesDownloaded, st.events ++ [⟨st.downloaded, f, total, st.bytesDownloaded⟩]⟩

/-- `downloadTiles` from `src/services/tileDownloader.ts` lines 193–224.
`Promise.allSettled` interleaves the per-tile tasks on the event loop in
some order; `outcomes` is that settlement sequence (one entry per tile,
so `total = outcomes.length`), and the model folds the settlements in
that order over the shared counters. -/
def downloadTiles (outcomes : List TileOutcome) : BatchState :=
  outcomes.foldl (downloadTilesStep outcomes.length) ⟨0, 0, 0, []⟩

/-! ## Area records and the key-value store -/

/-- Persistent area record, from `DownloadedArea` in `src/types.ts`.
`downloadedAt` is the ISO-8601 timestamp string under which the record is
stored (`saveAreaMetadata` normalizes a `Date` to this string before
writing).  The optional compression statistics fields are omitted: no
code path of the verified claims reads them. -/
structure AreaRecord where
  id : String
  name : String
  bbox : BoundingBox
  baseZoom : ℕ
  additionalZoomLevels : ℕ
  minZoom : ℕ
  maxZoom : ℕ
  tileCount : ℕ
  sizeBytes : ℤ
  downloadedAt : String
  tileUrlTemplate : String
deriving DecidableEq, Repr

/-- Value stored under a tile key (`TileStorageData` in
`src/services/tileDownloader.ts` lines 7–10). -/
structure TileStorageData where
  data : JsBlob
  storedAt : String
deriving DecidableEq, Repr

/-- A value of the IndexedDB store: one of the record shapes the
subsystem writes (tile bytes, compression metadata, or an area record).
Compression metadata content is irrelevant to every claim, so only its
`tileKey` field is kept. -/
inductive StoreVal where
  | tile (d : TileStorageData)
  | meta (tileKey : String)
  | area (a : AreaRecord)
deriving DecidableEq, Repr

/-- The IndexedDB database behind idb-keyval: a flat association of
string keys to values.  `keys` enumerates the key column; the claims
below depend only on key membership, never on enumeration order. -/
def Store : Type := List (String × StoreVal)

instance : DecidableEq Store := by
  unfold Store
  infer_instance

/-- idb-keyval `get`. -/
def storeGet (s : Store) (k : String) : Option StoreVal :=
  (s.find? (fun p => p.1 == k)).map (fun p => p.2)

/-- idb-keyval `del`: remove the binding of a key. -/
def storeDel (s : Store) (k : String) : Store :=
  s.filter (fun p => p.1 != k)

/-- idb-keyval `keys`. -/
def storeKeys (s : Store) : List String := s.map Prod.fst

/-- JavaScript `String.prototype.startsWith`, spelled out on character
lists. -/
def jsStartsWith (k pre : String) : Bool :=
  k.data.take pre.data.length == pre.data

/-- Character-list splitter behind `jsSplit`: cut at every separator,
keeping empty pieces, exactly like JavaScript `split`. -/
def jsSplitAux (sep : Char) : List Char → List Char → List (List Char)
  | [], cur => [cur.reverse]
  | c :: rest, cur =>
    if c == sep then cur.reverse :: jsSplitAux sep rest []
    else jsSplitAux sep rest (c :: cur)

/-- JavaScript `String.prototype.split` with a single-character
separator, as used by `deleteCachedTiles` for `key.split('_')`. -/
def jsSplit (sep : Char) (k : String) : List String :=
  (jsSplitAux sep k.data []).map (fun cs => ⟨cs⟩)

/-- The tile key format shared by the whole subsystem:
`tile_{z}_{x}_{y}`. -/
def tileKey (t : TileCoord) : String :=
  "tile_" ++ toString t.z ++ "_" ++ toString t.x ++ "_" ++ toString t.y

/-- The area key format: `area_{id}`. -/
def areaKey (areaId : String) : String := "area_" ++ areaId

/-- `getTileFromStorage` from `src/services/tileDownloader.ts` lines
19–35: `null` when the key is absent (or holds no tile data), otherwise
the stored blob. -/
def getTileFromStorage (s : Store) (t : TileCoord) : Option JsBlob :=
  match storeGet s (tileKey t) with
  | some (.tile d) => some d.data
  | _ => none

/-- `deleteTileFromStorage` from `src/services/tileDownloader.ts` lines
80–83. -/
def deleteTileFromStorage (s : Store) (t : TileCoord) : Store :=
  storeDel s (tileKey t)

/-- `getAllStoredTileKeys` from `src/services/tileDownloader.ts` lines
88–91: every store key starting with `tile_` — which also matches the
compression-metadata keys `tile_meta_{z}_{x}_{y}` written by
`saveTileMetadata` (`src/services/tileMetadata.ts`). -/
def getAllStoredTileKeys (s : Store) : List String :=
  (storeKeys s).filter (fun k => jsStartsWith k "tile_")

/-! ## Area manager (`src/composables/useDownloadedAreas.ts`) -/

/-- The descending comparator of `getAllAreas` (line 60):
`(a, b) => b.downloadedAt.localeCompare(a.downloadedAt)` — on ISO-8601
timestamps (digits, `-`, `:`, `.`, `T`, `Z`) locale collation coincides
with ordinary lexicographic string order, which is how the code comments
justify the comparison. -/
def areaGe (a b : AreaRecord) : Prop := b.downloadedAt ≤ a.downloadedAt

instance : DecidableRel areaGe := fun a b =>
  inferInstanceAs (Decidable (b.downloadedAt ≤ a.downloadedAt))

instance : IsTotal AreaRecord areaGe :=
  ⟨fun a b => (le_total b.downloadedAt a.downloadedAt).elim Or.inl Or.inr⟩

instance : IsTrans AreaRecord areaGe :=
  ⟨fun _ _ _ hab hbc => le_trans hbc hab⟩

/-- The collection phase of `getAllAreas` (lines 47–56): the area records
found under `area_`-prefixed keys, in key-enumeration order. -/
def collectAreas (s : Store) : List AreaRecord :=
  (((storeKeys s).filter (fun k => jsStartsWith k "area_")).filterMap (fun k =>
    match storeGet s k with
    | some (.area a) => some a
    | _ => none))

/-- `getAllAreas` from `src/composables/useDownloadedAreas.ts` lines
46–61: collect, then sort by `downloadedAt` descending.  JavaScript
`Array.prototype.sort` with a consistent comparator is some stable sort;
it is modelled by insertion sort, which is stable. -/
def getAllAreas (s : Store) : List AreaRecord :=
  List.insertionSort areaGe (collectAreas s)

/-- `getAreaById` from `src/composables/useDownloadedAreas.ts` lines
66–70. -/
def getAreaById (s : Store) (areaId : String) : Option AreaRecord :=
  match storeGet s (areaKey areaId) with
  | some (.area a) => some a
  | _ => none

/-- `deleteArea` from `src/composables/useDownloadedAreas.ts` lines
75–93: recompute the area's full tile list and delete every one of those
tile keys unconditionally, then delete the area record.  A thrown
`calculateDownloadList` error propagates out of the JavaScript function
and becomes `Except.error` here. -/
def deleteArea (mercY : ℚ → ℕ → ℤ) (s : Store) (areaId : String) : Except String Store :=
  match getAreaById s areaId with
  | none => .ok s
  | some area => do
    let tilesToDelete ← calculateDownloadList mercY area.bbox area.baseZoom
      area.additionalZoomLevels
    let s1 := tilesToDelete.foldl deleteTileFromStorage s
    pure (storeDel s1 (areaKey areaId))

/-- Result shape of `getCachedTiles` (`CachedTilesInfo`, lines 8–12). -/
structure CachedTilesInfo where
  count : ℕ
  estimatedSizeBytes : ℤ
  tileKeys : List String
deriving DecidableEq, Repr

/-- `associatedTileKeys.add(key)` on the `Set<string>` of
`getCachedTiles` (line 119), modelled on a duplicate-free list; only
membership in the set is ever consulted. -/
def addTileKey (ks : List String) (t : TileCoord) : List String :=
  let k := tileKey t
  if ks.contains k then ks else ks ++ [k]

/-- One iteration of the area loop of `getCachedTiles` (lines 115–121):
recompute the area's tiles and add their keys to the set. -/
def areaStep (mercY : ℚ → ℕ → ℤ) (acc : List String) (area : AreaRecord) :
    Except String (List String) := do
  let tiles ← calculateDownloadList mercY area.bbox area.baseZoom area.additionalZoomLevels
  pure (tiles.foldl addTileKey acc)

/-- The `Set<string>` accumulation of `getCachedTiles` (lines 114–121):
the union of the tile keys recomputed from every area. -/
def associatedTileKeys (mercY : ℚ → ℕ → ℤ) (areas : List AreaRecord) :
    Except String (List String) :=
  areas.foldlM (areaStep mercY) []

/-- `getCachedTiles` from `src/composables/useDownloadedAreas.ts` lines
106–139: all `tile_`-prefixed store keys not contained in any area's
recomputed key set, with the 20 KiB-per-tile size estimate. -/
def getCachedTiles (mercY : ℚ → ℕ → ℤ) (s : Store) : Except String CachedTilesInfo := do
  let allTileKeys := getAllStoredTileKeys s
  let areas := getAllAreas s
  let assoc ← associatedTileKeys mercY areas
  let cachedKeys := allTileKeys.filter (fun k => !(assoc.contains k))
  pure ⟨cachedKeys.length, (cachedKeys.length : ℤ) * (20 * 1024), cachedKeys⟩

/-- Decimal digit accumulation behind `jsParseInt`. -/
def parseNatAux : List Char → ℕ → Option ℕ
  | [], acc => some acc
  | c :: rest, acc =>
    if c.isDigit then parseNatAux rest (acc * 10 + (c.toNat - 48)) else none

/-- JavaScript `parseInt` restricted to the strings it meets here: on a
(possibly negative) decimal integer string it returns the integer; a
string that would give `NaN` — empty or not starting with a digit — is
`none`.  (On a string with trailing garbage `parseInt` keeps the numeric
prefix; such strings never reach the call in `deleteCachedTiles` on
stores whose keys the subsystem itself wrote.) -/
def jsParseInt (str : String) : Option ℤ :=
  match str.data with
  | '-' :: c :: rest =>
    if c.isDigit then (parseNatAux (c :: rest) 0).map (fun n => -(n : ℤ)) else none
  | c :: rest =>
    if c.isDigit then (parseNatAux (c :: rest) 0).map (fun n => (n : ℤ)) else none
  | [] => none

/-- One iteration of the deletion loop of `deleteCachedTiles` (lines
148–159): split the key on `_`; when that yields exactly four parts,
parse the last three as the coordinates and delete that tile's key.  A
key with a different number of parts (such as the five-part
`tile_meta_{z}_{x}_{y}`) is skipped.  When `parseInt` yields `NaN` the
code deletes the junk key `tile_NaN_NaN_NaN`, which is a no-op on every
store the subsystem writes; the model skips the delete. -/
def deleteCachedStep (st : Store) (k : String) : Store :=
  let parts := jsSplit '_' k
  if parts.length == 4 then
    match jsParseInt (parts.getD 1 ""), jsParseInt (parts.getD 2 ""),
        jsParseInt (parts.getD 3 "") with
    | some z, some x, some y => deleteTileFromStorage st ⟨z, x, y⟩
    | _, _, _ => st
  else st

/-- `deleteCachedTiles` from `src/composables/useDownloadedAreas.ts`
lines 144–160: delete the reported orphan keys that parse as
`tile_z_x_y`. -/
def deleteCachedTiles (mercY : ℚ → ℕ → ℤ) (s : Store) : Except String Store := do
  let info ← getCachedTiles mercY s
  pure (info.tileKeys.foldl deleteCachedStep s)

/-! ## Download orchestrator (`src/composables/useOfflineTiles.ts`) -/

/-- The reactive progress record, from `DownloadProgress` in
`src/types.ts`.  The `estimatedTimeRemaining` field is wall-clock derived
(`Date.now` arithmetic) and read by nothing verified here, so it is not
tracked. -/
structure DownloadProgress where
  areaId : String
  total : ℕ
  downloaded : ℕ
  failed : ℕ
  percentage : ℤ
  bytesDownloaded : ℤ
  isComplete : Bool
  isCancelled : Bool
deriving DecidableEq, Repr

/-- `progressCallback` of `downloadArea`
(`src/composables/useOfflineTiles.ts` lines 77–106): copy the batch
counters into the progress record, recompute
`percentage = Math.round((downloaded + failed) / total * 100)` (0 when
`total` is 0), and overwrite `bytesDownloaded` with the 20 KiB estimate
`downloaded * 20 * 1024` (not the downloader's actual byte count). -/
def progressCallback (p : DownloadProgress) (stats : ProgressEvent) : DownloadProgress :=
  ⟨p.areaId, p.total, stats.downloaded, stats.failed,
    (if 0 < stats.total then round (((stats.downloaded : ℚ) + stats.failed) / stats.total * 100)
      else 0),
    (stats.downloaded : ℤ) * (20 * 1024), p.isComplete, p.isCancelled⟩

/-- The hard-wired OSM tile URL template (line 30). -/
def DEFAULT_TILE_URL : String := "https://tile.openstreetmap.org/{z}/{x}/{y}.png"

/-- `downloadArea` from `src/composables/useOfflineTiles.ts` lines
49–138.  `settled` is the settlement sequence of the tile batch (see
`downloadTiles`); `areaId` stands for the fresh `crypto.randomUUID()` and
`now` for `new Date()` serialized to ISO-8601; `cancelRequested` is the
value of the cancellation flag when the batch has settled.  The result
pairs the final progress record with the `DownloadedArea` record handed
to `saveAreaMetadata` for persistence (`none` when cancelled).  The
function performs no storage-quota check of any kind before downloading. -/
def downloadArea (mercY : ℚ → ℕ → ℤ) (bbox : BoundingBox) (areaName : String)
    (baseZoom additionalZoomLevels : ℕ) (settled : List TileOutcome)
    (areaId now : String) (cancelRequested : Bool) :
    Except String (DownloadProgress × Option AreaRecord) := do
  let tiles ← calculateDownloadList mercY bbox baseZoom additionalZoomLevels
  let init : DownloadProgress := ⟨areaId, tiles.length, 0, 0, 0, 0, false, false⟩
  let batch := downloadTiles settled
  let prog := batch.events.foldl progressCallback init
  if cancelRequested then
    pure (⟨prog.areaId, prog.total, prog.downloaded, prog.failed, prog.percentage,
      prog.bytesDownloaded, false, true⟩, none)
  else
    let prog2 : DownloadProgress := ⟨prog.areaId, prog.total, prog.downloaded, prog.failed,
      100, prog.bytesDownloaded, true, prog.isCancelled⟩
    let area : AreaRecord := ⟨areaId, areaName, bbox, baseZoom, additionalZoomLevels,
      baseZoom, baseZoom + additionalZoomLevels, tiles.length, prog2.bytesDownloaded, now,
      DEFAULT_TILE_URL⟩
    pure (prog2, some area)

/-! ## Generic helpers -/

/-- Decidable equality for `Except`, used to evaluate the embedded
functions on concrete stores. -/
def exceptDecEq {ε α : Type} [DecidableEq ε] [DecidableEq α] : DecidableEq (Except ε α)
  | .ok a, .ok b =>
    if h : a = b then isTrue (by rw [h]) else isFalse (fun hh => h (Except.ok.inj hh))
  | .error a, .error b =>
    if h : a = b then isTrue (by rw [h]) else isFalse (fun hh => h (Except.error.inj hh))
  | .ok _, .error _ => isFalse (fun hh => Except.noConfusion hh)
  | .error _, .ok _ => isFalse (fun hh => Except.noConfusion hh)

instance {ε α : Type} [DecidableEq ε] [DecidableEq α] : DecidableEq (Except ε α) :=
  exceptDecEq

/-- The high normalization loop is the identity on longitudes at most
180. -/
theorem normLonHi_of_le {lon : ℚ} (h : lon ≤ 180) : normLonHi lon = lon := by
  rw [normLonHi, dif_neg (not_lt.2 h)]

/-- The low normalization loop is the identity on longitudes at least
-180. -/
theorem normLonLo_of_le {lon : ℚ} (h : -180 ≤ lon) : normLonLo lon = lon := by
  rw [normLonLo, dif_neg (not_lt.2 h)]

/-- Longitude normalization is the identity on `[-180, 180]`. -/
theorem normLon_of_bounds {lon : ℚ} (h1 : -180 ≤ lon) (h2 : lon ≤ 180) : normLon lon = lon := by
  rw [normLon, normLonHi_of_le h2, normLonLo_of_le h1]

/-! ## Concrete instances used to exercise the theorems -/

/-- A concrete stand-in for the Mercator row computation, used when the
theorems are instantiated on concrete inputs (their statements hold for
every `mercY`). -/
def mercY0 : ℚ → ℕ → ℤ := fun _ _ => 0

/-- The degenerate point bounding box at the origin. -/
def bbox0 : BoundingBox := ⟨0, 0, 0, 0⟩

/-- `calculateDownloadList` on the point box at zoom 0 yields the single
tile `(0, 0, 0)` (under `mercY0`). -/
theorem calcDL0 : calculateDownloadList mercY0 bbox0 0 0 = .ok [⟨0, 0, 0⟩] := by
  have h0 : normLon (0 : ℚ) = 0 := normLon_of_bounds (by norm_num) (by norm_num)
  have hfl : ⌊(180 : ℚ) / 360⌋ = 0 := by
    rw [Int.floor_eq_zero_iff]
    constructor <;> norm_num
  simp [calculateDownloadList, collectZooms, getTilesInExtent, lonLatToTile, h0, hfl, mercY0,
    tileRect, intRange, bbox0]
  decide

/-! ## Batch aggregation invariants -/

/-- Number of successfully settled tiles in a settlement sequence. -/
def countSuccess (l : List TileOutcome) : ℕ :=
  l.countP (fun o => match o with | .success _ => true | .failure => false)

/-- Number of failed tiles in a settlement sequence. -/
def countFail (l : List TileOutcome) : ℕ :=
  l.countP (fun o => match o with | .success _ => false | .failure => true)

/-- Total bytes stored by the successful settlements. -/
def sumSizes : List TileOutcome → ℤ
  | [] => 0
  | .success sz :: l => sz + sumSizes l
  | .failure :: l => sumSizes l

/-- The progress-event trace produced by a settlement sequence starting
from counters `d`, `f` and byte count `b`. -/
def eventsFrom (T d f : ℕ) (b : ℤ) : List TileOutcome → List ProgressEvent
  | [] => []
  | .success sz :: l => ⟨d + 1, f, T, b + sz⟩ :: eventsFrom T (d + 1) f (b + sz) l
  | .failure :: l => ⟨d, f + 1, T, b⟩ :: eventsFrom T d (f + 1) b l

/-- Full characterization of the settlement fold of `downloadTiles`. -/
theorem foldl_downloadTilesStep (T : ℕ) (l : List TileOutcome) (st : BatchState) :
    List.foldl (downloadTilesStep T) st l =
      ⟨st.downloaded + countSuccess l, st.failed + countFail l,
        st.bytesDownloaded + sumSizes l,
        st.events ++ eventsFrom T st.downloaded st.failed st.bytesDownloaded l⟩ := by
  induction l generalizing st with
  | nil => simp [countSuccess, countFail, sumSizes, eventsFrom]
  | cons o l ih =>
    cases o with
    | success sz =>
      rw [List.foldl_cons, ih]
      simp [downloadTilesStep, countSuccess, countFail, sumSizes, eventsFrom,
        List.countP_cons]
      exact ⟨by omega, by ring⟩
    | failure =>
      rw [List.foldl_cons, ih]
      simp [downloadTilesStep, countSuccess, countFail, sumSizes, eventsFrom,
        List.countP_cons]
      omega

/-- The trace has one event per settled tile. -/
theorem eventsFrom_length (T d f : ℕ) (b : ℤ) (l : List TileOutcome) :
    (eventsFrom T d f b l).length = l.length := by
  induction l generalizing d f b with
  | nil => rfl
  | cons o l ih => cases o <;> simp [eventsFrom, ih]

/-- Each event reports cumulative counters: the settled totals run
`d + f + 1, d + f + 2, …` along the trace. -/
theorem eventsFrom_cumulative (T d f : ℕ) (b : ℤ) (l : List TileOutcome) :
    (eventsFrom T d f b l).map (fun e => e.downloaded + e.failed) =
      List.range' (d + f + 1) l.length := by
  induction l generalizing d f b with
  | nil => rfl
  | cons o l ih =>
    cases o with
    | success sz =>
      simp only [eventsFrom, List.map_cons, List.length_cons, List.range'_succ, ih]
      rw [show d + 1 + f = d + f + 1 from by omega]
    | failure =>
      simp only [eventsFrom, List.map_cons, List.length_cons, List.range'_succ, ih]
      rw [show d + (f + 1) = d + f + 1 from by omega]

/-- Every event of the trace reports the same batch total. -/
theorem eventsFrom_total (T d f : ℕ) (b : ℤ) (l : List TileOutcome) :
    ∀ e ∈ eventsFrom T d f b l, e.total = T := by
  induction l generalizing d f b with
  | nil => intro e he; cases he
  | cons o l ih =>
    intro e he
    cases o with
    | success sz =>
      rcases List.mem_cons.1 he with h1 | h1
      · rw [h1]
      · exact ih _ _ _ e h1
    | failure =>
      rcases List.mem_cons.1 he with h1 | h1
      · rw [h1]
      · exact ih _ _ _ e h1

/-- Every settlement is a success or a failure. -/
theorem countSuccess_add_countFail (l : List TileOutcome) :
    countSuccess l + countFail l = l.length := by
  induction l with
  | nil => rfl
  | cons o l ih => cases o <;> simp [countSuccess, countFail, List.countP_cons] at ih ⊢ <;> omega

/-- Claim C4: `downloadTiles` uses fail-soft aggregation — for every
settlement sequence (in particular whatever order the event loop settles
the per-tile tasks in, and however many tiles fail permanently) the batch
processes every tile and returns counters rather than rejecting; after
every settlement the progress callback is invoked once with cumulative
counters (`downloaded + failed` runs `1, 2, …, total` along the event
trace, each event reporting the batch total); and at completion
`downloaded + failed = total` holds. -/
theorem downloadTiles_spec (outcomes : List TileOutcome) :
    (downloadTiles outcomes).downloaded = countSuccess outcomes ∧
    (downloadTiles outcomes).failed = countFail outcomes ∧
    (downloadTiles outcomes).downloaded + (downloadTiles outcomes).failed = outcomes.length ∧
    (downloadTiles outcomes).events.length = outcomes.length ∧
    ((downloadTiles outcomes).events.map (fun e => e.downloaded + e.failed) =
      List.range' 1 outcomes.length) ∧
    ∀ e ∈ (downloadTiles outcomes).events, e.total = outcomes.length := by
  have h := foldl_downloadTilesStep outcomes.length outcomes ⟨0, 0, 0, []⟩
  have hcc := countSuccess_add_countFail outcomes
  rw [downloadTiles, h]
  refine ⟨by simp, by simp, by simp; omega, ?_, ?_, ?_⟩
  · simpa using eventsFrom_length outcomes.length 0 0 0 outcomes
  · simpa using eventsFrom_cumulative outcomes.length 0 0 0 outcomes
  · simpa using eventsFrom_total outcomes.length 0 0 0 outcomes

/-- Concrete instance of `downloadTiles_spec`: a batch of three tiles
whose second settlement fails still settles all three, the final
counters add up to the total, and the second progress event reports the
batch total. -/
theorem downloadTiles_spec_witness :
    (downloadTiles [TileOutcome.success 7, TileOutcome.failure,
        TileOutcome.success 5]).downloaded +
      (downloadTiles [TileOutcome.success 7, TileOutcome.failure,
        TileOutcome.success 5]).failed = 3 ∧
    (⟨1, 1, 3, 7⟩ : ProgressEvent).total = 3 := by
  constructor
  · exact (downloadTiles_spec
      [TileOutcome.success 7, TileOutcome.failure, TileOutcome.success 5]).2.2.1
  · exact (downloadTiles_spec
      [TileOutcome.success 7, TileOutcome.failure, TileOutcome.success 5]).2.2.2.2.2
      ⟨1, 1, 3, 7⟩ (by decide)

/-! ## Orchestrator progress invariants -/

/-- The shape every progress record takes while `downloadArea` is
driving `progressCallback`: counters `d`/`f`, the recomputed percentage
over the event total `Te`, and the 20 KiB byte estimate.  `Tp` is the
`total` field set when the record was initialized. -/
def renderProg (a : String) (Tp Te : ℕ) (c1 c2 : Bool) (d f : ℕ) : DownloadProgress :=
  ⟨a, Tp, d, f,
    (if 0 < Te then round (((d : ℚ) + (f : ℚ)) / (Te : ℚ) * 100) else 0),
    (d : ℤ) * (20 * 1024), c1, c2⟩

/-- No successes in an all-failure settlement sequence. -/
theorem countSuccess_of_all_failure (l : List TileOutcome)
    (h : ∀ o ∈ l, o = TileOutcome.failure) : countSuccess l = 0 := by
  induction l with
  | nil => rfl
  | cons o l ih =>
    have ho := h o (List.mem_cons_self o l)
    rw [ho]
    simp only [countSuccess, List.countP_cons]
    have := ih (fun o ho => h o (List.mem_cons_of_mem _ ho))
    simpa [countSuccess] using this

/-- Folding the orchestrator's `progressCallback` over the event trace of
a settlement sequence just advances the rendered counters. -/
theorem foldl_progressCallback (a : String) (Tp Te : ℕ) (c1 c2 : Bool) (d f : ℕ)
    (b : ℤ) (l : List TileOutcome) :
    List.foldl progressCallback (renderProg a Tp Te c1 c2 d f) (eventsFrom Te d f b l) =
      renderProg a Tp Te c1 c2 (d + countSuccess l) (f + countFail l) := by
  induction l generalizing d f b with
  | nil => simp [eventsFrom, countSuccess, countFail]
  | cons o l ih =>
    cases o with
    | success sz =>
      have hstep : progressCallback (renderProg a Tp Te c1 c2 d f)
          ⟨d + 1, f, Te, b + sz⟩ = renderProg a Tp Te c1 c2 (d + 1) f := by
        simp [progressCallback, renderProg]
      rw [eventsFrom, List.foldl_cons, hstep, ih]
      rw [show d + 1 + countSuccess l = d + countSuccess (TileOutcome.success sz :: l)
          from by simp [countSuccess, List.countP_cons]; omega,
        show f + countFail l = f + countFail (TileOutcome.success sz :: l)
          from by simp [countFail, List.countP_cons]]
    | failure =>
      have hstep : progressCallback (renderProg a Tp Te c1 c2 d f)
          ⟨d, f + 1, Te, b⟩ = renderProg a Tp Te c1 c2 d (f + 1) := by
        simp [progressCallback, renderProg]
      rw [eventsFrom, List.foldl_cons, hstep, ih]
      rw [show d + countSuccess l = d + countSuccess (TileOutcome.failure :: l)
          from by simp [countSuccess, List.countP_cons],
        show f + 1 + countFail l = f + countFail (TileOutcome.failure :: l)
          from by simp [countFail, List.countP_cons]; omega]

/-- Claim C6: every `downloadArea` call that is not cancelled marks the
progress record `isComplete = true` with `percentage = 100` once the
batch has settled, and hands a `DownloadedArea` record to
`saveAreaMetadata` for persistence — including when every tile failed
(`downloaded = 0`, `failed = total`); the persisted record's `sizeBytes`
equals `downloaded * 20480` (the orchestrator's 20 KiB estimate), hence
`0` in the all-failed case. -/
theorem exceptBindOk {e a b : Type} (x : a) (f : a → Except e b) :
    (Except.ok x : Except e a) >>= f = f x := rfl

theorem downloadArea_complete_spec (mercY : ℚ → ℕ → ℤ) (bbox : BoundingBox)
    (areaName : String) (baseZoom addl : ℕ) (settled : List TileOutcome)
    (areaId now : String) (tiles : List TileCoord)
    (htiles : calculateDownloadList mercY bbox baseZoom addl = .ok tiles)
    (hlen : settled.length = tiles.length) :
    ∃ prog area,
      downloadArea mercY bbox areaName baseZoom addl settled areaId now false =
        .ok (prog, some area) ∧
      prog.isComplete = true ∧
      prog.percentage = 100 ∧
      prog.downloaded = countSuccess settled ∧
      prog.failed = countFail settled ∧
      area.sizeBytes = (countSuccess settled : ℤ) * (20 * 1024) ∧
      area.sizeBytes = prog.bytesDownloaded ∧
      area.tileCount = tiles.length ∧
      area.downloadedAt = now ∧
      ((∀ o ∈ settled, o = TileOutcome.failure) →
        prog.downloaded = 0 ∧ prog.failed = tiles.length ∧ area.sizeBytes = 0) := by
  have hbatch := foldl_downloadTilesStep settled.length settled ⟨0, 0, 0, []⟩
  simp only [List.nil_append] at hbatch
  have hinit : (⟨areaId, tiles.length, 0, 0, 0, 0, false, false⟩ : DownloadProgress) =
      renderProg areaId tiles.length settled.length false false 0 0 := by
    simp [renderProg]
  have hfold := foldl_progressCallback areaId tiles.length settled.length false false
    0 0 0 settled
  simp only [Nat.zero_add] at hfold
  refine ⟨⟨areaId, tiles.length, countSuccess settled, countFail settled, 100,
      ((countSuccess settled : ℕ) : ℤ) * (20 * 1024), true, false⟩,
    ⟨areaId, areaName, bbox, baseZoom, addl, baseZoom, baseZoom + addl, tiles.length,
      ((countSuccess settled : ℕ) : ℤ) * (20 * 1024), now, DEFAULT_TILE_URL⟩,
    ?_, rfl, rfl, rfl, rfl, rfl, rfl, rfl, rfl, ?_⟩
  · rw [downloadArea, htiles, exceptBindOk]
    simp only [downloadTiles, hbatch, hinit, hfold]
    rfl
  · intro hall
    have hcs := countSuccess_of_all_failure settled hall
    have hcc := countSuccess_add_countFail settled
    refine ⟨hcs, ?_, ?_⟩
    · show countFail settled = tiles.length
      omega
    · show ((countSuccess settled : ℕ) : ℤ) * (20 * 1024) = 0
      rw [hcs]
      simp

/-- Concrete instance of `downloadArea_complete_spec`: a one-tile area
whose single tile fails still completes with a persisted record of size
0. -/
theorem downloadArea_complete_spec_witness :
    ∃ prog area,
      downloadArea mercY0 bbox0 "Area" 0 0 [TileOutcome.failure] "id0"
          "2024-01-01T00:00:00.000Z" false = .ok (prog, some area) ∧
        prog.isComplete = true ∧ area.sizeBytes = 0 := by
  obtain ⟨prog, area, h1, h2, _, _, _, _, _, _, _, h10⟩ :=
    downloadArea_complete_spec mercY0 bbox0 "Area" 0 0 [TileOutcome.failure] "id0"
      "2024-01-01T00:00:00.000Z" [⟨0, 0, 0⟩] calcDL0 (by decide)
  exact ⟨prog, area, h1, h2, (h10 (by decide)).2.2⟩

/-! ## Retry and backoff -/

/-- Whether a fetch outcome is retryable per the policy: a 429 status,
any 5xx status, or a network-level failure. -/
def FetchOutcome.retryable : FetchOutcome → Bool
  | .resp s _ => s == 429 || (500 ≤ s && s < 600)
  | .netError _ => true

/-- The error value recorded for a failed fetch outcome. -/
def toError (t : TileCoord) : FetchOutcome → DlError
  | .resp s _ => .http t s
  | .netError m => .net m

/-- A retryable status is not `response.ok`. -/
theorem respOk_of_retryable {s : ℤ} (hs : s = 429 ∨ (500 ≤ s ∧ s < 600)) :
    respOk s = false := by
  have h300 : ¬ s < 300 := by rcases hs with hs | hs <;> omega
  rw [show respOk s = (decide (200 ≤ s) && decide (s < 300)) from rfl,
    decide_eq_false h300]
  simp

/-- A retryable status is not a non-retryable 4xx. -/
theorem nonRetryable4xx_of_retryable {s : ℤ} (hs : s = 429 ∨ (500 ≤ s ∧ s < 600)) :
    nonRetryable4xx s = false := by
  rcases hs with hs | hs
  · subst hs
    decide
  · rw [show nonRetryable4xx s =
        (decide (400 ≤ s) && decide (s < 500) && (s != 429)) from rfl,
      decide_eq_false (by omega : ¬ s < 500)]
    simp

/-- A run of the retry loop whose remaining attempts all fail retryably
ends with the last attempt's error, sleeping the exponential backoff
delays after every attempt but the last. -/
theorem retryAux_all_retryable (f : String → ℕ → FetchOutcome) (t : TileCoord)
    (u : String) (m : ℕ) (d : ℤ) :
    ∀ n a, a + n = m → 1 ≤ a →
      (∀ j, a ≤ j → j ≤ m → (f (buildTileUrl u t) j).retryable = true) →
      ∀ le, downloadTileWithRetryAux f t u m d a le =
        (.error (toError t (f (buildTileUrl u t) m)),
          (List.range n).map (fun i => d * 2 ^ (a - 1 + i))) := by
  intro n
  induction n with
  | zero =>
    intro a ham ha1 hret le
    have ham' : a = m := by omega
    subst ham'
    rw [downloadTileWithRetryAux, dif_neg (by omega : ¬ a < a)]
    have hr := hret a (le_refl a) (le_refl a)
    cases hf : f (buildTileUrl u t) a with
    | resp s blob =>
      rw [hf] at hr
      have hs : s = 429 ∨ (500 ≤ s ∧ s < 600) := by
        simp [FetchOutcome.retryable] at hr
        tauto
      simp only [respOk_of_retryable hs, nonRetryable4xx_of_retryable hs,
        Bool.false_eq_true, if_false, lt_irrefl, if_neg]
      rw [downloadTileWithRetryAux, dif_pos (by omega : a < a + 1)]
      simp [toError, hf]
    | netError msg =>
      simp only [lt_irrefl, if_neg, if_false]
      rw [downloadTileWithRetryAux, dif_pos (by omega : a < a + 1)]
      simp [toError, hf]
  | succ n ih =>
    intro a ham ha1 hret le
    have ham2 : a < m := by omega
    rw [downloadTileWithRetryAux, dif_neg (by omega : ¬ m < a)]
    have hr := hret a (le_refl a) (by omega)
    have hrest := ih (a + 1) (by omega) (by omega)
      (fun j hj1 hj2 => hret j (by omega) hj2)
    simp only [Nat.add_sub_cancel] at hrest
    have hrange : (List.range (n + 1)).map (fun i => d * 2 ^ (a - 1 + i)) =
        d * 2 ^ (a - 1) :: (List.range n).map (fun i => d * 2 ^ (a + i)) := by
      rw [List.range_succ_eq_map, List.map_cons, List.map_map]
      congr 1
      apply List.map_congr_left
      intro i _
      show d * 2 ^ (a - 1 + (i + 1)) = d * 2 ^ (a + i)
      rw [show a - 1 + (i + 1) = a + i from by omega]
    cases hf : f (buildTileUrl u t) a with
    | resp s blob =>
      rw [hf] at hr
      have hs : s = 429 ∨ (500 ≤ s ∧ s < 600) := by
        simp [FetchOutcome.retryable] at hr
        tauto
      simp only [respOk_of_retryable hs, nonRetryable4xx_of_retryable hs,
        Bool.false_eq_true, if_false, if_pos ham2]
      rw [hrest (some (DlError.http t s)), hrange]
    | netError msg =>
      simp only [if_pos ham2]
      rw [hrest (some (DlError.net msg)), hrange]

/-- Claim C3: `downloadTileWithRetry`, for every tile and URL template:
an HTTP response with status in `[400, 500)` other than 429 makes the
function fail immediately after that attempt with no backoff wait; when
every attempt up to `maxRetries` fails retryably (429, any 5xx, or a
network-level error) each failed attempt except the last is followed by a
`baseDelay * 2 ^ (attempt - 1)` millisecond wait — so exactly
`maxRetries - 1` waits, none after the final attempt — and the function
fails with the last attempt's download error. -/
theorem downloadTileWithRetry_spec (f : String → ℕ → FetchOutcome) (t : TileCoord)
    (u : String) (m : ℕ) (d : ℤ) (hm : 1 ≤ m) :
    (∀ a le s b, 1 ≤ a → a ≤ m → f (buildTileUrl u t) a = .resp s b →
      400 ≤ s → s < 500 → s ≠ 429 →
      downloadTileWithRetryAux f t u m d a le = (.error (.http t s), [])) ∧
    ((∀ j, 1 ≤ j → j ≤ m → (f (buildTileUrl u t) j).retryable = true) →
      downloadTileWithRetry f t u m d =
        (.error (toError t (f (buildTileUrl u t) m)),
          (List.range (m - 1)).map (fun i => d * 2 ^ i))) := by
  constructor
  · intro a le s b ha1 ham hf h1 h2 h3
    rw [downloadTileWithRetryAux, dif_neg (by omega : ¬ m < a), hf]
    have hok : respOk s = false := by
      rw [show respOk s = (decide (200 ≤ s) && decide (s < 300)) from rfl,
        decide_eq_false (by omega : ¬ s < 300)]
      simp
    have h4 : nonRetryable4xx s = true := by
      simp [nonRetryable4xx, h1, h2, h3]
    simp only [hok, h4, Bool.false_eq_true, if_false, if_true]
  · intro hall
    rw [downloadTileWithRetry]
    have h := retryAux_all_retryable f t u m d (m - 1) 1 (by omega) (le_refl 1) hall none
    simpa using h

/-- A fetch stub that always answers 404. -/
def f404 : String → ℕ → FetchOutcome := fun _ _ => .resp 404 ⟨0⟩

/-- A fetch stub that always fails at the network level. -/
def fNet : String → ℕ → FetchOutcome := fun _ _ => .netError "connection reset"

/-- A concrete tile. -/
def t0 : TileCoord := ⟨3, 1, 2⟩

/-- A concrete URL template. -/
def u0 : String := "https://tile.openstreetmap.org/{z}/{x}/{y}.png"

/-- Concrete instance of `downloadTileWithRetry_spec`: a 404 on the first
attempt fails at once with no waits; three straight network failures end
after exactly two backoff waits of 1 and 2 seconds with the network
error. -/
theorem downloadTileWithRetry_spec_witness :
    downloadTileWithRetryAux f404 t0 u0 3 1000 1 none =
      (.error (.http t0 404), []) ∧
    downloadTileWithRetry fNet t0 u0 3 1000 =
      (.error (.net "connection reset"), [1000, 2000]) := by
  constructor
  · exact (downloadTileWithRetry_spec f404 t0 u0 3 1000 (by norm_num)).1 1 none 404 ⟨0⟩
      (le_refl 1) (by norm_num) rfl (by norm_num) (by norm_num) (by norm_num)
  · have h := (downloadTileWithRetry_spec fNet t0 u0 3 1000 (by norm_num)).2
      (fun j _ _ => rfl)
    rw [h]
    norm_num [List.range_succ, toError, fNet]

/-! ## Bounding box validation -/

/-- A JavaScript inclusive loop from `a` to `a` runs exactly once. -/
theorem intRange_self (a : ℤ) : intRange a a = [a] := by
  rw [intRange, show a + 1 - a = (1 : ℤ) from by ring,
    show ((1 : ℤ)).toNat = 1 from rfl, show List.range 1 = [0] from rfl, List.map_singleton]
  norm_num

/-- The tile rectangle of a single point is a single tile. -/
theorem tileRect_point (zoom : ℕ) (x y : ℤ) : tileRect zoom x x y y = [⟨(zoom : ℤ), x, y⟩] := by
  rw [tileRect, intRange_self, intRange_self]
  simp

/-- Claim C7: `getTilesInExtent` fails with the invalid-bounding-box
error exactly when `west > east`, and on a degenerate point bounding box
(`west = east`, `north = south`) it returns exactly one tile. -/
theorem getTilesInExtent_spec (mercY : ℚ → ℕ → ℤ) (b : BoundingBox) (zoom : ℕ) :
    ((∃ e, getTilesInExtent mercY b zoom = .error e) ↔ b.west > b.east) ∧
    (b.west = b.east → b.north = b.south →
      ∃ t, getTilesInExtent mercY b zoom = .ok [t]) := by
  constructor
  · constructor
    · rintro ⟨e, he⟩
      by_contra hc
      rw [getTilesInExtent, if_neg hc] at he
      exact Except.noConfusion he
    · intro hgt
      exact ⟨_, by rw [getTilesInExtent, if_pos hgt]⟩
  · intro hwe hns
    have hcond : ¬ b.west > b.east := by
      rw [hwe]
      exact lt_irrefl _
    rw [getTilesInExtent, if_neg hcond, hwe, hns]
    exact ⟨⟨(zoom : ℤ), (lonLatToTile mercY b.east b.south zoom).1,
      (lonLatToTile mercY b.east b.south zoom).2⟩, by simp only [tileRect_point]⟩

/-- An inverted bounding box (west 2, east 1). -/
def bbox1 : BoundingBox := ⟨2, 0, 1, 0⟩

/-- Concrete instance of `getTilesInExtent_spec`: the inverted box throws
and the point box yields one tile. -/
theorem getTilesInExtent_spec_witness :
    (∃ e, getTilesInExtent mercY0 bbox1 7 = .error e) ∧
    (∃ t, getTilesInExtent mercY0 bbox0 5 = .ok [t]) :=
  ⟨(getTilesInExtent_spec mercY0 bbox1 7).1.mpr (by norm_num [bbox1]),
    (getTilesInExtent_spec mercY0 bbox0 5).2 rfl rfl⟩

/-! ## Deduplication of the download list -/

/-- The integer range list never repeats. -/
theorem intRange_nodup (a b : ℤ) : (intRange a b).Nodup :=
  List.Nodup.map (fun i j h => by omega) (List.nodup_range _)

/-- Every tile of a rectangle carries the rectangle's zoom. -/
theorem mem_tileRect {zoom : ℕ} {x0 x1 y0 y1 : ℤ} {t : TileCoord}
    (h : t ∈ tileRect zoom x0 x1 y0 y1) : t.z = (zoom : ℤ) := by
  rw [tileRect] at h
  simp only [List.mem_flatMap, List.mem_map] at h
  obtain ⟨x, _, y, _, rfl⟩ := h
  rfl

/-- The nested loop of one zoom level produces no duplicate tiles. -/
theorem tileRect_nodup (zoom : ℕ) (x0 x1 y0 y1 : ℤ) :
    (tileRect zoom x0 x1 y0 y1).Nodup := by
  rw [tileRect, List.nodup_flatMap]
  constructor
  · intro x _
    exact List.Nodup.map (fun p q hpq => by simpa using hpq) (intRange_nodup y0 y1)
  · apply List.Pairwise.imp ?_ (intRange_nodup x0 x1)
    intro x x2 hne t ht ht2
    simp only [List.mem_map] at ht ht2
    obtain ⟨y, _, rfl⟩ := ht
    obtain ⟨y2, _, heq⟩ := ht2
    injection heq with h1 h2 h3
    exact hne h2.symm

/-- On a valid bounding box one zoom level yields a duplicate-free list
of tiles of that zoom. -/
theorem getTilesInExtent_ok (mercY : ℚ → ℕ → ℤ) (b : BoundingBox) (zoom : ℕ)
    (hwe : b.west ≤ b.east) :
    ∃ l, getTilesInExtent mercY b zoom = .ok l ∧ l.Nodup ∧
      ∀ t ∈ l, t.z = (zoom : ℤ) := by
  rw [getTilesInExtent, if_neg (not_lt.2 hwe)]
  exact ⟨tileRect zoom (lonLatToTile mercY b.west b.north zoom).1
      (lonLatToTile mercY b.east b.south zoom).1
      (lonLatToTile mercY b.west b.north zoom).2
      (lonLatToTile mercY b.east b.south zoom).2, rfl, tileRect_nodup _ _ _ _ _,
    fun _ ht => mem_tileRect ht⟩

/-- The zoom loop over distinct zoom levels yields a duplicate-free
union. -/
theorem collectZooms_ok (mercY : ℚ → ℕ → ℤ) (b : BoundingBox)
    (hwe : b.west ≤ b.east) :
    ∀ zs : List ℕ, zs.Nodup →
      ∃ L, collectZooms mercY b zs = .ok L ∧ L.Nodup ∧
        ∀ t ∈ L, ∃ z ∈ zs, t.z = (z : ℤ) := by
  intro zs
  induction zs with
  | nil => exact fun _ => ⟨[], rfl, List.nodup_nil, by simp⟩
  | cons z zs ih =>
    intro hnd
    obtain ⟨l, hl, hlnd, hlz⟩ := getTilesInExtent_ok mercY b z hwe
    obtain ⟨L, hL, hLnd, hLz⟩ := ih (List.Nodup.of_cons hnd)
    refine ⟨l ++ L, ?_, ?_, ?_⟩
    · rw [collectZooms, hl, exceptBindOk, hL, exceptBindOk]
      exact rfl
    · rw [List.nodup_append]
      refine ⟨hlnd, hLnd, ?_⟩
      intro t htl htL
      have h1 := hlz t htl
      obtain ⟨z2, hz2, ht2⟩ := hLz t htL
      have hzz : z = z2 := by
        have := h1.symm.trans ht2
        omega
      exact (List.nodup_cons.1 hnd).1 (hzz ▸ hz2)
    · intro t ht
      rcases List.mem_append.1 ht with h | h
      · exact ⟨z, List.mem_cons_self z zs, hlz t h⟩
      · obtain ⟨z2, hz2, ht2⟩ := hLz t h
        exact ⟨z2, List.mem_cons_of_mem _ hz2, ht2⟩

/-- Claim C8: for every bounding box with `west ≤ east` and every base
zoom and additional-level count, `calculateDownloadList` returns a list
with no two identical `(z, x, y)` tuples. -/
theorem calculateDownloadList_nodup (mercY : ℚ → ℕ → ℤ) (b : BoundingBox)
    (baseZoom addl : ℕ) (hwe : b.west ≤ b.east) :
    ∃ L, calculateDownloadList mercY b baseZoom addl = .ok L ∧ L.Nodup := by
  have hzs : ((List.range (addl + 1)).map (fun i => baseZoom + i)).Nodup :=
    List.Nodup.map (fun i j h => by omega) (List.nodup_range _)
  obtain ⟨L, hL, hnd, _⟩ := collectZooms_ok mercY b hwe _ hzs
  exact ⟨L, hL, hnd⟩

/-- Concrete instance of `calculateDownloadList_nodup` on the point box. -/
theorem calculateDownloadList_nodup_witness :
    ∃ L, calculateDownloadList mercY0 bbox0 0 0 = .ok L ∧ L.Nodup :=
  calculateDownloadList_nodup mercY0 bbox0 0 0 (le_refl 0)

/-! ## Area listing order -/

/-- Claim C10: `getAllAreas` returns every saved area record — a
permutation of the records found under `area_` keys — sorted by
`downloadedAt` descending, the order decided by lexicographic comparison
of the ISO-8601 timestamp strings (`areaGe`, built on the lexicographic
string order). -/
theorem getAllAreas_sorted (s : Store) :
    (getAllAreas s).Perm (collectAreas s) ∧ List.Sorted areaGe (getAllAreas s) :=
  ⟨List.perm_insertionSort areaGe (collectAreas s),
    List.sorted_insertionSort areaGe (collectAreas s)⟩

/-! ## Shared-tile deletion defect -/

/-- Evaluation helper: `deleteArea` on an existing area whose tile list
is known deletes exactly those tile keys and then the area key. -/
theorem deleteArea_eval (mercY : ℚ → ℕ → ℤ) (s : Store) (areaId : String)
    (area : AreaRecord) (tiles : List TileCoord)
    (hget : getAreaById s areaId = some area)
    (hcd : calculateDownloadList mercY area.bbox area.baseZoom
      area.additionalZoomLevels = .ok tiles) :
    deleteArea mercY s areaId =
      .ok (storeDel (tiles.foldl deleteTileFromStorage s) (areaKey areaId)) := by
  simp only [deleteArea, hget, hcd, exceptBindOk]
  exact rfl

/-- The newer of the two overlapping point areas. -/
def areaA : AreaRecord :=
  ⟨"a", "Area A", bbox0, 0, 0, 0, 0, 1, 20480, "2024-01-02T00:00:00.000Z", DEFAULT_TILE_URL⟩

/-- The older of the two overlapping point areas. -/
def areaB : AreaRecord :=
  ⟨"b", "Area B", bbox0, 0, 0, 0, 0, 1, 20480, "2024-01-01T00:00:00.000Z", DEFAULT_TILE_URL⟩

/-- A store holding two areas with identical bounding boxes and zooms —
hence the identical single tile — and that shared stored tile. -/
def sharedStore : Store :=
  [("area_a", .area areaA), ("area_b", .area areaB),
    ("tile_0_0_0", .tile ⟨⟨20480⟩, "2024-01-01T00:00:00.000Z"⟩)]

/-- Claim C1 (evaluation of the defect): with two saved areas sharing
their single tile, `deleteArea` on area `a` removes the shared tile from
the store even though surviving area `b`'s recomputed tile list still
contains that coordinate — the code deletes every recomputed tile
unconditionally, with no check against other surviving areas, so the
shared tile is no longer retrievable for `b`. -/
theorem deleteArea_shared_tile_defect :
    getTileFromStorage sharedStore ⟨0, 0, 0⟩ = some ⟨20480⟩ ∧
    deleteArea mercY0 sharedStore "a" =
      .ok [("area_b", .area areaB)] ∧
    getAreaById [("area_b", .area areaB)] "b" = some areaB ∧
    calculateDownloadList mercY0 areaB.bbox areaB.baseZoom
      areaB.additionalZoomLevels = .ok [⟨0, 0, 0⟩] ∧
    getTileFromStorage [("area_b", .area areaB)] ⟨0, 0, 0⟩ = none := by
  have h1 := deleteArea_eval mercY0 sharedStore "a" areaA [⟨0, 0, 0⟩] (by decide) calcDL0
  refine ⟨by decide, ?_, by decide, calcDL0, by decide⟩
  rw [h1]
  decide

/-! ## Missing storage-quota gate -/

/-- Claim C2 (evaluation of the defect): `downloadArea` makes no storage
check of any kind — its model takes no storage input and never produces
an insufficient-storage error.  Concretely, for a one-tile area whose
estimated size 20480 exceeds an available budget of 0 bytes, the call
still runs the batch (the tile is fetched and settles) and completes,
persisting the area record. -/
theorem downloadArea_no_quota_gate :
    estimateDownloadSize [⟨0, 0, 0⟩] = 20480 ∧
    ∃ prog area,
      downloadArea mercY0 bbox0 "Test Area" 0 0 [TileOutcome.success 20480] "id1"
          "2024-01-01T00:00:00.000Z" false = .ok (prog, some area) ∧
        prog.isComplete = true ∧ area.tileCount = 1 := by
  refine ⟨by decide,
    ⟨⟨"id1", 1, 1, 0, 100, 20480, true, false⟩,
      ⟨"id1", "Test Area", bbox0, 0, 0, 0, 0, 1, 20480, "2024-01-01T00:00:00.000Z",
        DEFAULT_TILE_URL⟩, ?_, rfl, rfl⟩⟩
  rw [downloadArea, calcDL0, exceptBindOk]
  norm_num [downloadTiles, downloadTilesStep, progressCallback, round_eq,
    Int.floor_eq_iff]
  exact rfl

/-! ## Orphan-tile accounting -/

/-- An `Except.error` propagates through bind. -/
theorem exceptBindErr {e a b : Type} (x : e) (f : a → Except e b) :
    (Except.error x : Except e a) >>= f = Except.error x := rfl

/-- A key that splits into exactly four `_`-separated parts whose last
three parse back and rebuild the very same key.  Every key written by
`saveTileToStorage` (that is, `tileKey t`) has this property; the
five-part metadata keys `tile_meta_{z}_{x}_{y}` do not. -/
def keyRoundTrips (k : String) : Bool :=
  let parts := jsSplit '_' k
  parts.length == 4 &&
    (match jsParseInt (parts.getD 1 ""), jsParseInt (parts.getD 2 ""),
        jsParseInt (parts.getD 3 "") with
      | some z, some x, some y => tileKey ⟨z, x, y⟩ == k
      | _, _, _ => false)

/-- On a round-tripping key the deletion loop body is exactly a store
delete of that key. -/
theorem deleteCachedStep_eq (st : Store) (k : String) (h : keyRoundTrips k = true) :
    deleteCachedStep st k = storeDel st k := by
  rw [keyRoundTrips] at h
  simp only [Bool.and_eq_true, beq_iff_eq] at h
  obtain ⟨h4, hm⟩ := h
  rw [deleteCachedStep]
  rcases hz : jsParseInt ((jsSplit '_' k).getD 1 "") with _ | z <;>
    rcases hx : jsParseInt ((jsSplit '_' k).getD 2 "") with _ | x <;>
      rcases hy : jsParseInt ((jsSplit '_' k).getD 3 "") with _ | y <;>
        simp only [hz, hx, hy] at hm ⊢
  all_goals first
    | exact Bool.noConfusion hm
    | (rw [beq_iff_eq] at hm
       rw [if_pos (by simp [h4]), deleteTileFromStorage, hm])

/-- Key membership after a store delete. -/
theorem mem_storeKeys_storeDel (s : Store) (k k2 : String) :
    k2 ∈ storeKeys (storeDel s k) ↔ k2 ∈ storeKeys s ∧ k2 ≠ k := by
  simp only [storeKeys, storeDel, List.mem_map, List.mem_filter, bne_iff_ne]
  constructor
  · rintro ⟨p, ⟨hp, hne⟩, rfl⟩
    exact ⟨⟨p, hp, rfl⟩, hne⟩
  · rintro ⟨⟨p, hp, rfl⟩, hne⟩
    exact ⟨p, ⟨hp, hne⟩, rfl⟩

/-- Folding the deletion loop over round-tripping keys removes exactly
those keys from the store. -/
theorem storeKeys_foldl_deleteCachedStep (ks : List String) :
    ∀ s : Store, (∀ k ∈ ks, keyRoundTrips k = true) →
      ∀ k2, k2 ∈ storeKeys (ks.foldl deleteCachedStep s) ↔
        k2 ∈ storeKeys s ∧ ¬ k2 ∈ ks := by
  induction ks with
  | nil =>
    intro s _ k2
    simp
  | cons k ks ih =>
    intro s hall k2
    rw [List.foldl_cons, deleteCachedStep_eq s k (hall k (List.mem_cons_self k ks)),
      ih (storeDel s k) (fun k3 h3 => hall k3 (List.mem_cons_of_mem _ h3)) k2,
      mem_storeKeys_storeDel]
    simp only [List.mem_cons]
    tauto

/-- Membership in the set built by adding every tile key of a list. -/
theorem mem_foldl_addTileKey (tiles : List TileCoord) :
    ∀ (acc : List String) (k : String),
      k ∈ tiles.foldl addTileKey acc ↔ k ∈ acc ∨ ∃ t ∈ tiles, tileKey t = k := by
  induction tiles with
  | nil =>
    intro acc k
    simp
  | cons t tiles ih =>
    intro acc k
    rw [List.foldl_cons, ih]
    have hstep : k ∈ addTileKey acc t ↔ (k ∈ acc ∨ tileKey t = k) := by
      rw [addTileKey]
      by_cases hc : acc.contains (tileKey t)
      · rw [if_pos hc]
        constructor
        · exact Or.inl
        · rintro (h | h)
          · exact h
          · rw [← h]
            simpa using hc
      · rw [if_neg hc]
        simp [eq_comm]
    rw [hstep]
    constructor
    · rintro ((h | h) | ⟨t2, ht2, hk2⟩)
      · exact Or.inl h
      · exact Or.inr ⟨t, List.mem_cons_self t tiles, h⟩
      · exact Or.inr ⟨t2, List.mem_cons_of_mem _ ht2, hk2⟩
    · rintro (h | ⟨t2, ht2, hk2⟩)
      · exact Or.inl (Or.inl h)
      · rcases List.mem_cons.1 ht2 with rfl | ht2
        · exact Or.inl (Or.inr hk2)
        · exact Or.inr ⟨t2, ht2, hk2⟩

/-- Membership in the accumulated association set: a key is associated
exactly when some processed area's recomputed tile list contains it. -/
theorem foldlM_areaStep_mem (mercY : ℚ → ℕ → ℤ) :
    ∀ (areas : List AreaRecord) (acc A : List String),
      List.foldlM (areaStep mercY) acc areas = .ok A →
      ∀ k, k ∈ A ↔ (k ∈ acc ∨ ∃ a ∈ areas, ∃ ts,
        calculateDownloadList mercY a.bbox a.baseZoom a.additionalZoomLevels = .ok ts ∧
        ∃ t ∈ ts, tileKey t = k) := by
  intro areas
  induction areas with
  | nil =>
    intro acc A h k
    rw [List.foldlM_nil] at h
    injection h with h
    subst h
    simp
  | cons a areas ih =>
    intro acc A h k
    rw [List.foldlM_cons, areaStep] at h
    cases hcd : calculateDownloadList mercY a.bbox a.baseZoom a.additionalZoomLevels with
    | error e =>
      rw [hcd, exceptBindErr, exceptBindErr] at h
      exact Except.noConfusion h
    | ok ts =>
      rw [hcd, exceptBindOk,
        show (pure (ts.foldl addTileKey acc) : Except String (List String)) =
          .ok (ts.foldl addTileKey acc) from rfl, exceptBindOk] at h
      rw [ih (ts.foldl addTileKey acc) A h k, mem_foldl_addTileKey]
      constructor
      · rintro ((h1 | h1) | ⟨a2, ha2, rest⟩)
        · exact Or.inl h1
        · exact Or.inr ⟨a, List.mem_cons_self a areas, ts, hcd, h1⟩
        · exact Or.inr ⟨a2, List.mem_cons_of_mem _ ha2, rest⟩
      · rintro (h1 | ⟨a2, ha2, ts2, hcd2, ht2⟩)
        · exact Or.inl (Or.inl h1)
        · rcases List.mem_cons.1 ha2 with rfl | ha2'
          · rw [hcd] at hcd2
            injection hcd2 with hts
            subst hts
            exact Or.inl (Or.inr ht2)
          · exact Or.inr ⟨a2, ha2', ts2, hcd2, ht2⟩

/-- Claim C5 (amended): on every store whose `tile_`-prefixed keys all
round-trip through the `tile_z_x_y` format (which holds for every key the
subsystem itself writes as a tile, but not for compression-metadata
keys), the orphan report lists exactly the stored tile keys that are in
no area's recomputed key set, its `count` is the length of that list,
and `deleteCachedTiles` removes exactly the reported keys from the
store. -/
theorem getCachedTiles_spec (mercY : ℚ → ℕ → ℤ) (s : Store)
    (hkeys : ∀ k ∈ storeKeys s, jsStartsWith k "tile_" = true → keyRoundTrips k = true)
    (info : CachedTilesInfo) (hinfo : getCachedTiles mercY s = .ok info) :
    ∃ assoc, associatedTileKeys mercY (getAllAreas s) = .ok assoc ∧
      info.count = info.tileKeys.length ∧
      (∀ k, k ∈ info.tileKeys ↔ k ∈ getAllStoredTileKeys s ∧ ¬ k ∈ assoc) ∧
      (∀ k, k ∈ assoc ↔ ∃ a ∈ getAllAreas s, ∃ ts,
        calculateDownloadList mercY a.bbox a.baseZoom a.additionalZoomLevels = .ok ts ∧
        ∃ t ∈ ts, tileKey t = k) ∧
      ∃ s2, deleteCachedTiles mercY s = .ok s2 ∧
        ∀ k, k ∈ storeKeys s2 ↔ k ∈ storeKeys s ∧ ¬ k ∈ info.tileKeys := by
  cases hassoc : associatedTileKeys mercY (getAllAreas s) with
  | error e =>
    rw [getCachedTiles, hassoc, exceptBindErr] at hinfo
    exact Except.noConfusion hinfo
  | ok assoc =>
    rw [getCachedTiles, hassoc, exceptBindOk] at hinfo
    have hinfo2 : info = ⟨((getAllStoredTileKeys s).filter
        (fun k => !(assoc.contains k))).length,
      (((getAllStoredTileKeys s).filter (fun k => !(assoc.contains k))).length : ℤ) *
        (20 * 1024),
      (getAllStoredTileKeys s).filter (fun k => !(assoc.contains k))⟩ :=
      (Except.ok.inj hinfo).symm
    subst hinfo2
    have hsub : ∀ k ∈ (getAllStoredTileKeys s).filter (fun k => !(assoc.contains k)),
        keyRoundTrips k = true := by
      intro k hk
      have hk2 := (List.mem_filter.1 hk).1
      have hk3 := List.mem_filter.1 hk2
      exact hkeys k hk3.1 hk3.2
    refine ⟨assoc, rfl, rfl, ?_, ?_, ?_⟩
    · intro k
      simp [List.mem_filter]
    · intro k
      have h := foldlM_areaStep_mem mercY (getAllAreas s) [] assoc hassoc k
      rw [associatedTileKeys] at hassoc
      simpa using h
    · refine ⟨((getAllStoredTileKeys s).filter
          (fun k => !(assoc.contains k))).foldl deleteCachedStep s, ?_, ?_⟩
      · rw [deleteCachedTiles, getCachedTiles, hassoc, exceptBindOk]
        exact rfl
      · exact storeKeys_foldl_deleteCachedStep _ s hsub

/-- A store holding one genuine orphan tile and no areas. -/
def tStore : Store := [("tile_0_0_0", StoreVal.tile ⟨⟨20480⟩, "2024-01-01T00:00:00.000Z"⟩)]

/-- Concrete instance of `getCachedTiles_spec`: on `tStore` the report is
exactly the one orphan tile and deletion removes exactly it. -/
theorem getCachedTiles_spec_witness :
    ∃ assoc, associatedTileKeys mercY0 (getAllAreas tStore) = .ok assoc ∧
      (⟨1, 20480, ["tile_0_0_0"]⟩ : CachedTilesInfo).count =
        (⟨1, 20480, ["tile_0_0_0"]⟩ : CachedTilesInfo).tileKeys.length ∧
      (∀ k, k ∈ (⟨1, 20480, ["tile_0_0_0"]⟩ : CachedTilesInfo).tileKeys ↔
        k ∈ getAllStoredTileKeys tStore ∧ ¬ k ∈ assoc) ∧
      (∀ k, k ∈ assoc ↔ ∃ a ∈ getAllAreas tStore, ∃ ts,
        calculateDownloadList mercY0 a.bbox a.baseZoom a.additionalZoomLevels = .ok ts ∧
        ∃ t ∈ ts, tileKey t = k) ∧
      ∃ s2, deleteCachedTiles mercY0 tStore = .ok s2 ∧
        ∀ k, k ∈ storeKeys s2 ↔ k ∈ storeKeys tStore ∧
          ¬ k ∈ (⟨1, 20480, ["tile_0_0_0"]⟩ : CachedTilesInfo).tileKeys :=
  getCachedTiles_spec mercY0 tStore (by decide) ⟨1, 20480, ["tile_0_0_0"]⟩ (by decide)

/-- A store holding one compression-metadata record and no areas. -/
def metaStore : Store := [("tile_meta_1_2_3", StoreVal.meta "tile_1_2_3")]

/-- Claim C5 counterexample, as the claim is stated: on `metaStore` the
orphan report contains the compression-metadata key `tile_meta_1_2_3` —
which is not a stored tile — and `deleteCachedTiles` removes nothing (the
key does not split into four parts), so the function does not remove
exactly the reported set: the reported key is still in the store. -/
theorem deleteCachedTiles_meta_counterexample :
    getCachedTiles mercY0 metaStore = .ok ⟨1, 20480, ["tile_meta_1_2_3"]⟩ ∧
    deleteCachedTiles mercY0 metaStore = .ok metaStore ∧
    "tile_meta_1_2_3" ∈ storeKeys metaStore ∧
    getTileFromStorage metaStore ⟨1, 2, 3⟩ = none := by decide

/-! ## Supporting fact: the x pipeline is range-safe -/

/-- In the exact-arithmetic embedding the `x` coordinate of
`lonLatToTile` is always clamped into `[0, 2 ^ zoom)` — the part of the
range-safety property that does not run through the floating-point
Mercator `y` formula. -/
theorem lonLatToTile_x_range (mercY : ℚ → ℕ → ℤ) (lon lat : ℚ) (zoom : ℕ) :
    0 ≤ (lonLatToTile mercY lon lat zoom).1 ∧
      (lonLatToTile mercY lon lat zoom).1 < 2 ^ zoom := by
  have hpos : (0 : ℤ) < 2 ^ zoom := pow_pos (by norm_num) zoom
  rw [lonLatToTile]
  simp only []
  split_ifs <;> constructor <;> omega

end TileCache
